import Mathlib

/-!
Verification of the gose crawler core (search_crawler_service) against its
natural-language specification.  The Go source is shallowly embedded:
strings that get scanned character by character are `List Char`, opaque
database text fields are `String`, timestamps are `Nat` seconds, and each
SQL statement becomes a pure function on an explicit list-of-rows state.
-/

/-! ## Character and string primitives (models of Go standard library calls) -/

/-- ASCII fragment of Go `strings.ToLower` / `unicode.ToLower` applied to one
character.  All inputs reaching the lowercasing call sites in this codebase
(domains, content types, HTML tag names) are ASCII; non-ASCII case mappings
are left untouched here. -/
def goLowerChar (c : Char) : Char :=
  if 'A' ≤ c ∧ c ≤ 'Z' then Char.ofNat (c.toNat + 32) else c

/-- `goLower l` lowercases every character, modeling Go `strings.ToLower`. -/
def goLower (l : List Char) : List Char := l.map goLowerChar

/-- The character set of Go `unicode.IsSpace`, used by `strings.TrimSpace`. -/
def isGoSpaceChar (c : Char) : Bool :=
  let n := c.toNat
  (decide (9 ≤ n) && decide (n ≤ 13)) || decide (n = 32) ||
  decide (n = 0x85) || decide (n = 0xA0) || decide (n = 0x1680) ||
  (decide (0x2000 ≤ n) && decide (n ≤ 0x200A)) ||
  decide (n = 0x2028) || decide (n = 0x2029) || decide (n = 0x202F) ||
  decide (n = 0x205F) || decide (n = 0x3000)

/-- The character class `\s` of Go `regexp` (RE2): tab, newline, form feed,
carriage return and space.  Note vertical tab is not included. -/
def isRegexSpaceChar (c : Char) : Bool :=
  decide (c = '\t') || decide (c = '\n') || decide (c = Char.ofNat 12) ||
  decide (c = '\r') || decide (c = ' ')

/-- Go `strings.TrimSpace` on a character list: drop `unicode.IsSpace`
characters from both ends. -/
def goTrimSpace (l : List Char) : List Char :=
  ((l.dropWhile isGoSpaceChar).reverse.dropWhile isGoSpaceChar).reverse

/-- Go `strings.HasPrefix s p`: `s` starts with `p`. -/
def goStartsWith : List Char → List Char → Bool
  | _, [] => true
  | [], _ :: _ => false
  | c :: cs, p :: ps => decide (c = p) && goStartsWith cs ps

/-- Go `strings.HasSuffix s suf`: `s` ends with `suf`. -/
def goHasSuffix (s suf : List Char) : Bool :=
  goStartsWith s.reverse suf.reverse

theorem goStartsWith_iff (s p : List Char) :
    goStartsWith s p = true ↔ ∃ t, p ++ t = s := by
  induction p generalizing s with
  | nil => simp [goStartsWith]
  | cons q qs ih =>
    cases s with
    | nil => simp [goStartsWith]
    | cons c cs =>
      simp only [goStartsWith, Bool.and_eq_true, decide_eq_true_eq, ih]
      constructor
      · rintro ⟨rfl, t, rfl⟩; exact ⟨t, rfl⟩
      · rintro ⟨t, h⟩
        obtain ⟨rfl, h2⟩ : q = c ∧ qs ++ t = cs := by
          constructor
          · exact (List.cons.injEq .. ▸ h).1
          · exact (List.cons.injEq .. ▸ h).2
        exact ⟨rfl, t, h2⟩

theorem goHasSuffix_iff (s suf : List Char) :
    goHasSuffix s suf = true ↔ ∃ t, t ++ suf = s := by
  rw [goHasSuffix, goStartsWith_iff]
  constructor
  · rintro ⟨t, h⟩
    refine ⟨t.reverse, ?_⟩
    have := congrArg List.reverse h
    simpa using this
  · rintro ⟨t, rfl⟩
    exact ⟨t.reverse, by simp⟩

/-! ## parser.go: `isInDomain` (lines 82–89) -/

/-- Embedding of `isInDomain` from `parser.go`: lowercase and trim both the
link host and the site domain, then accept when they are equal or when the
host ends with a dot followed by the domain. -/
def isInDomain (host siteDomain : List Char) : Bool :=
  let h := goLower (goTrimSpace host)
  let d := goLower (goTrimSpace siteDomain)
  decide (h = d) || goHasSuffix h ('.' :: d)

/-! ## http_client.go: `isAllowedContentType` (lines 72–84) -/

/-- Embedding of `isAllowedContentType` from `http_client.go`: an empty
allow-list admits everything; otherwise the trimmed lowercased content type
must start with some trimmed lowercased allow-list entry. -/
def isAllowedContentType (ctype : List Char) (allow : List (List Char)) : Bool :=
  if allow.length = 0 then true
  else
    let ct := goLower (goTrimSpace ctype)
    allow.any fun a => goStartsWith ct (goLower (goTrimSpace a))

/-- C5: acceptance of a discovered link's normalized host is exactly host
equality with the site domain or a dot-separated subdomain suffix match. -/
theorem isInDomain_spec (host siteDomain : List Char) :
    (isInDomain host siteDomain = true ↔
      (goLower (goTrimSpace host) = goLower (goTrimSpace siteDomain) ∨
       ∃ t, t ++ '.' :: goLower (goTrimSpace siteDomain) = goLower (goTrimSpace host))) ∧
    isInDomain "sub.example.com".data "example.com".data = true ∧
    isInDomain "evil.com".data "example.com".data = false ∧
    isInDomain "notexample.com".data "example.com".data = false := by
  refine ⟨?_, by decide, by decide, by decide⟩
  simp only [isInDomain, Bool.or_eq_true, decide_eq_true_eq, goHasSuffix_iff]

/-- C7: with an empty allow-list every content type is admitted; with a
non-empty allow-list a content type is admitted exactly when its trimmed,
lowercased form extends some trimmed, lowercased allow-list entry. -/
theorem isAllowedContentType_spec (ctype : List Char) (allow : List (List Char)) :
    (isAllowedContentType ctype [] = true) ∧
    (allow ≠ [] →
      (isAllowedContentType ctype allow = true ↔
        ∃ a ∈ allow,
          ∃ t, goLower (goTrimSpace a) ++ t = goLower (goTrimSpace ctype))) := by
  constructor
  · rfl
  · intro hne
    have hlen : ¬ allow.length = 0 := by
      simpa [List.length_eq_zero] using hne
    simp only [isAllowedContentType, if_neg hlen, List.any_eq_true]
    constructor
    · rintro ⟨a, ha, hpre⟩
      exact ⟨a, ha, (goStartsWith_iff _ _).mp hpre⟩
    · rintro ⟨a, ha, ht⟩
      exact ⟨a, ha, (goStartsWith_iff _ _).mpr ht⟩

/-- C7 witness: `text/html; charset=utf-8` is admitted by the allow-list
containing exactly ` Text/HTML `. -/
theorem isAllowedContentType_spec_witness :
    isAllowedContentType "text/html; charset=utf-8".data [" Text/HTML ".data] = true := by
  have h := (isAllowedContentType_spec "text/html; charset=utf-8".data
    [" Text/HTML ".data]).2 (by decide)
  exact h.mpr ⟨" Text/HTML ".data, by decide, "; charset=utf-8".data, by decide⟩

/-! ## Database model: crawl_queue (deploy/db/init.sql lines 65–90) -/

/-- The `crawl_status` enum from `init.sql`. -/
inductive CrawlStatus
  | queued
  | processing
  | done
  | error
deriving DecidableEq, Repr

/-- One row of `crawl_queue`.  Timestamps other than `next_try_at` are not
modeled; `next_try_at` is seconds since an arbitrary epoch. -/
structure QueueRow where
  id : Nat
  siteId : Nat
  url : String
  urlHash : String
  priority : Int
  status : CrawlStatus
  attempts : Nat
  lastError : Option String
  nextTryAt : Option Nat
deriving DecidableEq, Repr

/-- The `WHERE NOT EXISTS` subquery of `enqueueIfNotExists`: an active
(queued or processing) row for the same (site, url hash). -/
def activeMatch (siteId : Nat) (urlHash : String) (r : QueueRow) : Bool :=
  decide (r.siteId = siteId) && decide (r.urlHash = urlHash) &&
  (decide (r.status = CrawlStatus.queued) || decide (r.status = CrawlStatus.processing))

/-- Embedding of `enqueueIfNotExists` (conditional `INSERT ... WHERE NOT
EXISTS`): insert a fresh `queued` row with zero attempts unless an active row
for the same (site, url hash) exists; report whether a row was inserted.
`newId` stands for the `bigserial` id the database would assign. -/
def enqueueIfNotExists (newId siteId : Nat) (url urlHash : String) (priority : Int)
    (q : List QueueRow) : Bool × List QueueRow :=
  if q.any (activeMatch siteId urlHash) then
    (false, q)
  else
    (true, q ++ [⟨newId, siteId, url, urlHash, priority, CrawlStatus.queued, 0, none, none⟩])

/-- Embedding of `markQueueError`: set status `error`, record the message and
schedule the retry `retryAfterSec` seconds in the future on the row with the
given id. -/
def markQueueError (now id : Nat) (msg : String) (retryAfterSec : Nat)
    (q : List QueueRow) : List QueueRow :=
  q.map fun s =>
    if s.id = id then
      { s with status := CrawlStatus.error, lastError := some msg,
               nextTryAt := some (now + retryAfterSec) }
    else s

/-- Embedding of `markQueueDone`: set status `done` on the row with the
given id. -/
def markQueueDone (id : Nat) (q : List QueueRow) : List QueueRow :=
  q.map fun s => if s.id = id then { s with status := CrawlStatus.done } else s

/-! ## pickAndProcessOne, claim transaction (unnamed source, lines 259–293) -/

/-- The `WHERE` clause of the claim query: status `queued` and `next_try_at`
null or not after now. -/
def eligibleAt (now : Nat) (r : QueueRow) : Bool :=
  decide (r.status = CrawlStatus.queued) &&
  (match r.nextTryAt with
   | none => true
   | some t => decide (t ≤ now))

/-- `ORDER BY priority DESC, id`: `r` sorts strictly before `s`. -/
def pickBefore (r s : QueueRow) : Bool :=
  decide (s.priority < r.priority) ||
  (decide (r.priority = s.priority) && decide (r.id < s.id))

/-- Fold step retaining whichever row sorts first. -/
def chooseBest (acc : Option QueueRow) (r : QueueRow) : Option QueueRow :=
  match acc with
  | none => some r
  | some b => if pickBefore r b then some r else some b

/-- The `SELECT ... ORDER BY priority DESC, id LIMIT 1` of the claim query:
the eligible row sorting first, if any. -/
def selectNext (now : Nat) (q : List QueueRow) : Option QueueRow :=
  (q.filter (eligibleAt now)).foldl chooseBest none

/-- The `UPDATE ... SET status = 'processing', attempts = attempts + 1` of
the claim transaction. -/
def setProcessing (id : Nat) (q : List QueueRow) : List QueueRow :=
  q.map fun s =>
    if s.id = id then
      { s with status := CrawlStatus.processing, attempts := s.attempts + 1 }
    else s

/-- The claim transaction of `pickAndProcessOne`: select the first eligible
row, flip it to `processing` with one more attempt, and commit; when nothing
is eligible leave the queue unchanged and report no work. -/
def pickClaimTx (now : Nat) (q : List QueueRow) : Option QueueRow × List QueueRow :=
  match selectNext now q with
  | none => (none, q)
  | some r => (some r, setProcessing r.id q)

theorem pickBefore_iff (r s : QueueRow) :
    pickBefore r s = true ↔
      s.priority < r.priority ∨ (r.priority = s.priority ∧ r.id < s.id) := by
  simp [pickBefore]

theorem pickBefore_irrefl (r : QueueRow) : pickBefore r r = false := by
  simp [pickBefore]

theorem pickBefore_false_trans (a b c : QueueRow)
    (h1 : pickBefore a b = false) (h2 : pickBefore b c = false) :
    pickBefore a c = false := by
  have h1' : ¬ pickBefore a b = true := by simp [h1]
  have h2' : ¬ pickBefore b c = true := by simp [h2]
  rw [pickBefore_iff] at h1' h2'
  rw [Bool.eq_false_iff, ne_eq, pickBefore_iff]
  omega

theorem pickBefore_true_false_trans (a b c : QueueRow)
    (h1 : pickBefore a b = true) (h2 : pickBefore a c = false) :
    pickBefore b c = false := by
  have h2' : ¬ pickBefore a c = true := by simp [h2]
  rw [pickBefore_iff] at h1 h2'
  rw [Bool.eq_false_iff, ne_eq, pickBefore_iff]
  omega

theorem foldl_chooseBest_spec (l : List QueueRow) (acc : Option QueueRow) (r : QueueRow)
    (h : l.foldl chooseBest acc = some r) :
    (r ∈ l ∨ acc = some r) ∧
    (∀ s ∈ l, pickBefore s r = false) ∧
    (∀ b, acc = some b → pickBefore b r = false) := by
  induction l generalizing acc with
  | nil =>
    refine ⟨Or.inr h, by simp, ?_⟩
    intro b hb
    have : b = r := by
      have := hb ▸ h
      exact Option.some.inj this
    subst this
    exact pickBefore_irrefl b
  | cons a l ih =>
    obtain ⟨hmem, hbest, hacc⟩ := ih (chooseBest acc a) (by simpa using h)
    have hstep : pickBefore a r = false := by
      cases hacc0 : acc with
      | none => exact hacc a (by simp [chooseBest, hacc0])
      | some b0 =>
        by_cases hab : pickBefore a b0 = true
        · exact hacc a (by simp [chooseBest, hacc0, hab])
        · have hb0 : pickBefore b0 r = false :=
            hacc b0 (by simp [chooseBest, hacc0, hab])
          exact pickBefore_false_trans a b0 r (Bool.eq_false_iff.mpr hab) hb0
    refine ⟨?_, ?_, ?_⟩
    · rcases hmem with hin | heq
      · exact Or.inl (List.mem_cons_of_mem a hin)
      · cases hacc0 : acc with
        | none =>
          rw [hacc0] at heq
          simp only [chooseBest] at heq
          exact Or.inl (by simp [← Option.some.inj heq])
        | some b0 =>
          rw [hacc0] at heq
          simp only [chooseBest] at heq
          by_cases hab : pickBefore a b0 = true
          · rw [if_pos hab] at heq
            exact Or.inl (by simp [← Option.some.inj heq])
          · rw [if_neg hab] at heq
            exact Or.inr (hacc0 ▸ heq)
    · intro s hs
      rcases List.mem_cons.mp hs with rfl | hsl
      · exact hstep
      · exact hbest s hsl
    · intro b0 hb0
      by_cases hab : pickBefore a b0 = true
      · have har : pickBefore a r = false := hstep
        exact pickBefore_true_false_trans a b0 r hab har
      · exact hacc b0 (by simp [chooseBest, hb0, hab])

theorem foldl_chooseBest_ne_none (l : List QueueRow) (b : QueueRow) :
    l.foldl chooseBest (some b) ≠ none := by
  induction l generalizing b with
  | nil => simp
  | cons a l ih =>
    simp only [List.foldl_cons, chooseBest]
    by_cases hab : pickBefore a b = true
    · rw [if_pos hab]; exact ih a
    · rw [if_neg hab]; exact ih b

theorem selectNext_none_iff (now : Nat) (q : List QueueRow) :
    selectNext now q = none ↔ ∀ r ∈ q, eligibleAt now r = false := by
  rw [selectNext]
  constructor
  · intro h r hr
    by_contra hne
    have helig : eligibleAt now r = true := by
      cases he : eligibleAt now r with
      | false => exact absurd he hne
      | true => rfl
    have hfmem : r ∈ q.filter (eligibleAt now) := List.mem_filter.mpr ⟨hr, helig⟩
    cases hf : q.filter (eligibleAt now) with
    | nil => rw [hf] at hfmem; simp at hfmem
    | cons a l =>
      rw [hf] at h
      simp only [List.foldl_cons, chooseBest] at h
      exact foldl_chooseBest_ne_none l a h
  · intro h
    have hf : q.filter (eligibleAt now) = [] := by
      rw [List.filter_eq_nil_iff]
      intro a ha
      simp [h a ha]
    rw [hf]
    rfl

/-- C1: the claim transaction of `pickAndProcessOne` selects exactly one
queued row whose retry time is null or due, preferring higher priority and,
at equal priority, smaller id; it flips that row to `processing` with one
more attempt; with no eligible row it returns empty and leaves the queue
unchanged. -/
theorem pickAndProcessOne_claim_spec (now : Nat) (q : List QueueRow) :
    ((∀ r ∈ q, eligibleAt now r = false) → pickClaimTx now q = (none, q)) ∧
    (∀ r, (pickClaimTx now q).1 = some r →
      r ∈ q ∧
      r.status = CrawlStatus.queued ∧
      (r.nextTryAt = none ∨ ∃ t, r.nextTryAt = some t ∧ t ≤ now) ∧
      (∀ s ∈ q, eligibleAt now s = true →
        s.priority ≤ r.priority ∧ (s.priority = r.priority → r.id ≤ s.id)) ∧
      (pickClaimTx now q).2 =
        q.map (fun s =>
          if s.id = r.id then
            { s with status := CrawlStatus.processing, attempts := s.attempts + 1 }
          else s) ∧
      { r with status := CrawlStatus.processing, attempts := r.attempts + 1 }
        ∈ (pickClaimTx now q).2 ∧
      (pickClaimTx now q).2.length = q.length ∧
      (∀ s ∈ q, s.id ≠ r.id → s ∈ (pickClaimTx now q).2)) := by
  constructor
  · intro hnone
    have hsel : selectNext now q = none := (selectNext_none_iff now q).mpr hnone
    simp [pickClaimTx, hsel]
  · intro r hr
    have hsel : selectNext now q = some r := by
      cases hs : selectNext now q with
      | none => rw [pickClaimTx, hs] at hr; simp at hr
      | some r' =>
        rw [pickClaimTx, hs] at hr
        exact congrArg some (Option.some.inj hr)
    have hsnd : (pickClaimTx now q).2 = setProcessing r.id q := by
      rw [pickClaimTx, hsel]
    obtain ⟨hmem, hbest, -⟩ :=
      foldl_chooseBest_spec (q.filter (eligibleAt now)) none r hsel
    have hrfil : r ∈ q.filter (eligibleAt now) := by
      rcases hmem with h | h
      · exact h
      · simp at h
    have hrq : r ∈ q := (List.mem_filter.mp hrfil).1
    have helig : eligibleAt now r = true := (List.mem_filter.mp hrfil).2
    have hstatus : r.status = CrawlStatus.queued := by
      have := helig
      rw [eligibleAt, Bool.and_eq_true, decide_eq_true_eq] at this
      exact this.1
    have htry : r.nextTryAt = none ∨ ∃ t, r.nextTryAt = some t ∧ t ≤ now := by
      have := helig
      rw [eligibleAt, Bool.and_eq_true] at this
      cases ht : r.nextTryAt with
      | none => exact Or.inl rfl
      | some t =>
        refine Or.inr ⟨t, rfl, ?_⟩
        have h2 := this.2
        rw [ht] at h2
        simpa using h2
    refine ⟨hrq, hstatus, htry, ?_, by rw [hsnd]; rfl, ?_, ?_, ?_⟩
    · intro s hs hse
      have hsfil : s ∈ q.filter (eligibleAt now) := List.mem_filter.mpr ⟨hs, hse⟩
      have hpb : pickBefore s r = false := hbest s hsfil
      have hpb' : ¬ pickBefore s r = true := by simp [hpb]
      rw [pickBefore_iff] at hpb'
      omega
    · rw [hsnd, setProcessing]
      have := List.mem_map_of_mem
        (f := fun s =>
          if s.id = r.id then
            { s with status := CrawlStatus.processing, attempts := s.attempts + 1 }
          else s) hrq
      simpa using this
    · rw [hsnd, setProcessing, List.length_map]
    · intro s hs hne
      rw [hsnd, setProcessing]
      have := List.mem_map_of_mem
        (f := fun t =>
          if t.id = r.id then
            { t with status := CrawlStatus.processing, attempts := t.attempts + 1 }
          else t) hs
      simpa [hne] using this

/-- C1 witness: with two eligible priority-7 rows (ids 2 and 3) and an
eligible priority-5 row, the claim takes the id-2 row and marks it
processing with one attempt. -/
theorem pickAndProcessOne_claim_spec_witness :
    (⟨2, 1, "u2", "h2", 7, CrawlStatus.processing, 1, none, some 50⟩ : QueueRow)
      ∈ (pickClaimTx 100
          [⟨1, 1, "u1", "h1", 5, CrawlStatus.queued, 0, none, none⟩,
           ⟨2, 1, "u2", "h2", 7, CrawlStatus.queued, 0, none, some 50⟩,
           ⟨3, 1, "u3", "h3", 7, CrawlStatus.queued, 0, none, none⟩]).2 := by
  have h := (pickAndProcessOne_claim_spec 100
    [⟨1, 1, "u1", "h1", 5, CrawlStatus.queued, 0, none, none⟩,
     ⟨2, 1, "u2", "h2", 7, CrawlStatus.queued, 0, none, some 50⟩,
     ⟨3, 1, "u3", "h3", 7, CrawlStatus.queued, 0, none, none⟩]).2
    ⟨2, 1, "u2", "h2", 7, CrawlStatus.queued, 0, none, some 50⟩ (by decide)
  exact h.2.2.2.2.2.1

/-- C2: `enqueueIfNotExists` inserts exactly when no active (queued or
processing) row exists for the same (site, url hash); a duplicate leaves the
queue untouched and reports false; an insert appends one queued row with
zero attempts; the at-most-one-active-row invariant is preserved; an
immediately repeated enqueue of the same key reports false; and once every
row of the key is done or error, enqueueing reports true again.  Concurrent
enqueues are modeled as an arbitrary interleaving of these atomic
statements. -/
theorem enqueueIfNotExists_spec (newId siteId : Nat) (url urlHash : String)
    (priority : Int) (q : List QueueRow) :
    ((enqueueIfNotExists newId siteId url urlHash priority q).1 = true ↔
      ∀ r ∈ q, activeMatch siteId urlHash r = false) ∧
    ((enqueueIfNotExists newId siteId url urlHash priority q).1 = false →
      (enqueueIfNotExists newId siteId url urlHash priority q).2 = q) ∧
    ((enqueueIfNotExists newId siteId url urlHash priority q).1 = true →
      (enqueueIfNotExists newId siteId url urlHash priority q).2 =
        q ++ [⟨newId, siteId, url, urlHash, priority, CrawlStatus.queued, 0, none, none⟩]) ∧
    (q.countP (activeMatch siteId urlHash) ≤ 1 →
      (enqueueIfNotExists newId siteId url urlHash priority q).2.countP
        (activeMatch siteId urlHash) ≤ 1) ∧
    (∀ newId2,
      (enqueueIfNotExists newId siteId url urlHash priority q).1 = true →
      (enqueueIfNotExists newId2 siteId url urlHash priority
        (enqueueIfNotExists newId siteId url urlHash priority q).2).1 = false) ∧
    ((∀ r ∈ q, r.siteId = siteId → r.urlHash = urlHash →
        r.status = CrawlStatus.done ∨ r.status = CrawlStatus.error) →
      (enqueueIfNotExists newId siteId url urlHash priority q).1 = true) := by
  have hnewrow : activeMatch siteId urlHash
      ⟨newId, siteId, url, urlHash, priority, CrawlStatus.queued, 0, none, none⟩ = true := by
    simp [activeMatch]
  by_cases hdup : q.any (activeMatch siteId urlHash) = true
  · obtain ⟨r0, hr0, hr0a⟩ := List.any_eq_true.mp hdup
    refine ⟨?_, ?_, ?_, ?_, ?_, ?_⟩
    · rw [enqueueIfNotExists, if_pos hdup]
      constructor
      · intro h; exact absurd h (by simp)
      · intro h; exact absurd (h r0 hr0) (by simp [hr0a])
    · intro _; rw [enqueueIfNotExists, if_pos hdup]
    · intro h; rw [enqueueIfNotExists, if_pos hdup] at h; simp at h
    · intro h; rw [enqueueIfNotExists, if_pos hdup]; exact h
    · intro newId2 h; rw [enqueueIfNotExists, if_pos hdup] at h; simp at h
    · intro h
      have hsite : r0.siteId = siteId := by
        rw [activeMatch, Bool.and_eq_true, Bool.and_eq_true] at hr0a
        exact of_decide_eq_true hr0a.1.1
      have hhash : r0.urlHash = urlHash := by
        rw [activeMatch, Bool.and_eq_true, Bool.and_eq_true] at hr0a
        exact of_decide_eq_true hr0a.1.2
      rcases h r0 hr0 hsite hhash with hd | hd <;> simp [activeMatch, hd] at hr0a
  · have hall : ∀ r ∈ q, activeMatch siteId urlHash r = false := by
      intro r hr
      cases h : activeMatch siteId urlHash r with
      | false => rfl
      | true => exact absurd (List.any_eq_true.mpr ⟨r, hr, h⟩) hdup
    have hct : q.countP (activeMatch siteId urlHash) = 0 := by
      rw [List.countP_eq_zero]
      intro r hr; simp [hall r hr]
    refine ⟨?_, ?_, ?_, ?_, ?_, ?_⟩
    · rw [enqueueIfNotExists, if_neg hdup]
      exact ⟨fun _ => hall, fun _ => rfl⟩
    · intro h; rw [enqueueIfNotExists, if_neg hdup] at h; simp at h
    · intro _; rw [enqueueIfNotExists, if_neg hdup]
    · intro _
      rw [enqueueIfNotExists, if_neg hdup]
      simp only [List.countP_append, hct]
      simp [List.countP, List.countP.go, hnewrow]
    · intro newId2 _
      have hsnd : (enqueueIfNotExists newId siteId url urlHash priority q).2 =
          q ++ [⟨newId, siteId, url, urlHash, priority, CrawlStatus.queued, 0, none, none⟩] := by
        rw [enqueueIfNotExists, if_neg hdup]
      have hany : (q ++ ([⟨newId, siteId, url, urlHash, priority, CrawlStatus.queued, 0,
          none, none⟩] : List QueueRow)).any (activeMatch siteId urlHash) = true := by
        rw [List.any_eq_true]
        refine ⟨⟨newId, siteId, url, urlHash, priority, CrawlStatus.queued, 0, none, none⟩,
          by simp, hnewrow⟩
      rw [hsnd, enqueueIfNotExists, if_pos hany]
    · intro _; rw [enqueueIfNotExists, if_neg hdup]

/-- C2 witness: enqueueing a fresh URL inserts; immediately enqueueing it
again is refused; after the row is marked done the same URL inserts again. -/
theorem enqueueIfNotExists_spec_witness :
    (enqueueIfNotExists 1 7 "https://example.com/" "hh" 0 []).1 = true ∧
    (enqueueIfNotExists 2 7 "https://example.com/" "hh" 0
      (enqueueIfNotExists 1 7 "https://example.com/" "hh" 0 []).2).1 = false ∧
    (enqueueIfNotExists 3 7 "https://example.com/" "hh" 0
      (markQueueDone 1 (enqueueIfNotExists 1 7 "https://example.com/" "hh" 0 []).2)).1 = true := by
  refine ⟨?_, ?_, ?_⟩
  · exact ((enqueueIfNotExists_spec 1 7 "https://example.com/" "hh" 0 []).1).mpr (by simp)
  · exact (enqueueIfNotExists_spec 1 7 "https://example.com/" "hh" 0 []).2.2.2.2.1 2 (by decide)
  · exact (enqueueIfNotExists_spec 3 7 "https://example.com/" "hh" 0
      (markQueueDone 1 (enqueueIfNotExists 1 7 "https://example.com/" "hh" 0 []).2)).2.2.2.2.2
      (by decide)

/-! ## Concurrency model for claims

Each claim transaction holds an exclusive row lock (`FOR UPDATE SKIP
LOCKED`) until commit, so concurrent claimers serialize into some
interleaving of atomic claim transactions; `raceClaims` runs one such
interleaving of claim attempts. -/

/-- Run the given number of claim transactions in sequence, recording for
each whether it obtained a row. -/
def raceClaims (now : Nat) : Nat → List QueueRow → List Bool
  | 0, _ => []
  | n + 1, q => (pickClaimTx now q).1.isSome :: raceClaims now n (pickClaimTx now q).2

theorem pickClaimTx_some_mem (now : Nat) (q : List QueueRow) (r : QueueRow)
    (h : (pickClaimTx now q).1 = some r) :
    r ∈ q ∧ eligibleAt now r = true ∧ (pickClaimTx now q).2 = setProcessing r.id q := by
  have hsel : selectNext now q = some r := by
    cases hs : selectNext now q with
    | none => rw [pickClaimTx, hs] at h; simp at h
    | some r' =>
      rw [pickClaimTx, hs] at h
      exact congrArg some (Option.some.inj h)
  obtain ⟨hmem, -, -⟩ := foldl_chooseBest_spec (q.filter (eligibleAt now)) none r hsel
  have hrfil : r ∈ q.filter (eligibleAt now) := by
    rcases hmem with hm | hm
    · exact hm
    · simp at hm
  exact ⟨(List.mem_filter.mp hrfil).1, (List.mem_filter.mp hrfil).2,
    by rw [pickClaimTx, hsel]⟩

theorem raceClaims_no_eligible (now n : Nat) (q : List QueueRow)
    (h : ∀ r ∈ q, eligibleAt now r = false) :
    raceClaims now n q = List.replicate n false := by
  induction n with
  | zero => rfl
  | succ m ih =>
    have hsel : selectNext now q = none := (selectNext_none_iff now q).mpr h
    have htx : pickClaimTx now q = (none, q) := by rw [pickClaimTx, hsel]
    rw [raceClaims, htx]
    simp [List.replicate_succ, ih]

/-- C4: racing any number of claim transactions against a queue holding a
single eligible row lets exactly one succeed; and two consecutive claim
transactions never hand out the same row id, because a claimed row is left
in `processing` and is no longer eligible. -/
theorem pickClaimTx_mutual_exclusion (now : Nat) :
    (∀ n r, eligibleAt now r = true →
      (raceClaims now (n + 1) [r]).count true = 1) ∧
    (∀ q r1 r2, (pickClaimTx now q).1 = some r1 →
      (pickClaimTx now (pickClaimTx now q).2).1 = some r2 →
      r2.id ≠ r1.id) := by
  constructor
  · intro n r helig
    have hsel : selectNext now [r] = some r := by
      rw [selectNext]
      simp [List.filter, helig, chooseBest]
    have htx : pickClaimTx now [r] = (some r, setProcessing r.id [r]) := by
      rw [pickClaimTx, hsel]
    have hproc : setProcessing r.id [r] =
        [{ r with status := CrawlStatus.processing, attempts := r.attempts + 1 }] := by
      simp [setProcessing]
    have hrest : raceClaims now n (setProcessing r.id [r]) = List.replicate n false := by
      apply raceClaims_no_eligible
      intro s hs
      rw [hproc] at hs
      rcases List.mem_singleton.mp hs with rfl
      simp [eligibleAt]
    rw [raceClaims, htx]
    simp only [hrest]
    simp [List.count_replicate]
  · intro q r1 r2 h1 h2
    obtain ⟨-, -, hsnd⟩ := pickClaimTx_some_mem now q r1 h1
    rw [hsnd] at h2
    obtain ⟨hmem2, helig2, -⟩ := pickClaimTx_some_mem now (setProcessing r1.id q) r2 h2
    rw [setProcessing] at hmem2
    obtain ⟨s, hs, hfs⟩ := List.mem_map.mp hmem2
    by_cases hid : s.id = r1.id
    · rw [if_pos hid] at hfs
      rw [← hfs] at helig2
      simp [eligibleAt] at helig2
    · rw [if_neg hid] at hfs
      rw [← hfs]
      exact hid

/-- C4 witness: three claimers racing for one queued row produce exactly one
success. -/
theorem pickClaimTx_mutual_exclusion_witness :
    (raceClaims 0 3 [⟨1, 1, "u", "h", 0, CrawlStatus.queued, 0, none, none⟩]).count true = 1 := by
  exact (pickClaimTx_mutual_exclusion 0).1 2
    ⟨1, 1, "u", "h", 0, CrawlStatus.queued, 0, none, none⟩ (by decide)

/-! ## logger.go, second part: ProxyPool (lines 86–126 of the combined file)

The `uint64` counter is a `Nat` kept below `2 ^ 64`; Go's `int(i)` conversion
and the `int` subtraction wrap in two's complement, which the model mirrors.
A negative computed index would make Go panic on the slice access; the model
returns `none` there. -/

/-- The round-robin proxy pool.  Proxy URLs are kept as their configuration
strings; `counter` is the shared atomic counter. -/
structure ProxyPool where
  rotation : String
  proxies : List String
  counter : Nat
deriving DecidableEq, Repr

/-- Go's conversion of a `uint64` value to a signed 64-bit `int`. -/
def goIntOfUint64 (i : Nat) : Int :=
  if i < 2 ^ 63 then (i : Int) else (i : Int) - 2 ^ 64

/-- Go's wrapping decrement on `int64`, feeding Go's truncated `%`:
the index expression `(int(i) - 1) % n` of `ProxyPool.Next`. -/
def goNextIndex (i n : Nat) : Int :=
  let g := goIntOfUint64 i
  let j := if g - 1 < -(2 ^ 63 : Int) then g - 1 + 2 ^ 64 else g - 1
  Int.tmod j (n : Int)

/-- Embedding of `ProxyPool.Next`: an empty pool yields nothing and leaves
the counter alone; otherwise the counter is atomically incremented (mod
`2 ^ 64`) and the proxy at Go's index `(int(i) - 1) % len` is returned. -/
def proxyPoolNext (p : ProxyPool) : Option String × ProxyPool :=
  if p.proxies.length = 0 then (none, p)
  else
    let i := (p.counter + 1) % 2 ^ 64
    let idx := goNextIndex i p.proxies.length
    (if 0 ≤ idx then p.proxies[idx.toNat]? else none, { p with counter := i })

/-- The result of the k-th consecutive `Next` call on a pool (k counted
from 1; zero calls yield nothing). -/
def proxyNextCalls : Nat → ProxyPool → Option String
  | 0, _ => none
  | k + 1, p => if k = 0 then (proxyPoolNext p).1 else proxyNextCalls k (proxyPoolNext p).2

theorem goNextIndex_eq (i n : Nat) (h1 : 1 ≤ i) (h2 : i < 2 ^ 63) :
    goNextIndex i n = ((i - 1) % n : Nat) := by
  rw [goNextIndex, goIntOfUint64, if_pos h2]
  have hj : ¬ ((i : Int) - 1 < -(2 ^ 63 : Int)) := by push_cast; omega
  rw [if_neg hj]
  have hsub : (i : Int) - 1 = ((i - 1 : Nat) : Int) := by omega
  rw [hsub]
  rfl

theorem proxyPoolNext_empty (p : ProxyPool) (h : p.proxies = []) :
    proxyPoolNext p = (none, p) := by
  simp [proxyPoolNext, h]

theorem proxyPoolNext_step (rot : String) (l : List String) (c : Nat)
    (hl : l ≠ []) (hc : c + 1 < 2 ^ 63) :
    proxyPoolNext ⟨rot, l, c⟩ = (l[c % l.length]?, ⟨rot, l, c + 1⟩) := by
  have hlen : ¬ l.length = 0 := by simpa [List.length_eq_zero] using hl
  have h64 : c + 1 < 2 ^ 64 := lt_trans hc (by norm_num)
  have hi : (c + 1) % 2 ^ 64 = c + 1 := Nat.mod_eq_of_lt h64
  rw [proxyPoolNext]
  simp only [hlen, if_false, hi, goNextIndex_eq (c + 1) l.length (by omega) hc]
  rw [if_pos (Int.ofNat_nonneg _), Int.toNat_natCast]
  norm_num

theorem proxyNextCalls_formula (rot : String) (l : List String) (hl : l ≠ []) :
    ∀ k c, 1 ≤ k → c + k < 2 ^ 63 →
      proxyNextCalls k ⟨rot, l, c⟩ = l[(c + k - 1) % l.length]? := by
  intro k
  induction k with
  | zero => intro c h1 _; omega
  | succ m ih =>
    intro c _ hck
    cases m with
    | zero =>
      rw [proxyNextCalls, if_pos rfl, proxyPoolNext_step rot l c hl (by omega)]
      have hidx : c + (0 + 1) - 1 = c := by omega
      rw [hidx]
    | succ m' =>
      rw [proxyNextCalls, if_neg (by omega), proxyPoolNext_step rot l c hl (by omega)]
      have := ih (c + 1) (by omega) (by omega)
      rw [this]
      congr 2
      omega

/-- C8: `Next` on an empty pool always yields nothing, and on a non-empty
pool the k-th call (counted from 1, before the shared counter can overflow
Go's `int`) yields the proxy at index `(k - 1) mod n`. -/
theorem ProxyPool_Next_spec (rot : String) (l : List String) :
    (∀ k, proxyNextCalls k ⟨rot, [], 0⟩ = none) ∧
    (l ≠ [] → ∀ k, 1 ≤ k → k < 2 ^ 63 →
      proxyNextCalls k ⟨rot, l, 0⟩ = l[(k - 1) % l.length]?) := by
  constructor
  · intro k
    induction k with
    | zero => rfl
    | succ m ih =>
      rw [proxyNextCalls, proxyPoolNext_empty ⟨rot, [], 0⟩ rfl]
      by_cases hm : m = 0
      · rw [if_pos hm]
      · rw [if_neg hm]; exact ih
  · intro hl k h1 hk
    have := proxyNextCalls_formula rot l hl k 0 h1 (by omega)
    simpa using this

/-- C8 witness: with three proxies the first four calls return proxy-1,
proxy-2, proxy-3, proxy-1. -/
theorem ProxyPool_Next_spec_witness :
    proxyNextCalls 1 ⟨"round_robin", ["proxy-1", "proxy-2", "proxy-3"], 0⟩ = some "proxy-1" ∧
    proxyNextCalls 2 ⟨"round_robin", ["proxy-1", "proxy-2", "proxy-3"], 0⟩ = some "proxy-2" ∧
    proxyNextCalls 3 ⟨"round_robin", ["proxy-1", "proxy-2", "proxy-3"], 0⟩ = some "proxy-3" ∧
    proxyNextCalls 4 ⟨"round_robin", ["proxy-1", "proxy-2", "proxy-3"], 0⟩ = some "proxy-1" := by
  have h1 := (ProxyPool_Next_spec "round_robin" ["proxy-1", "proxy-2", "proxy-3"]).2
    (by decide) 1 (by decide) (by norm_num)
  have h2 := (ProxyPool_Next_spec "round_robin" ["proxy-1", "proxy-2", "proxy-3"]).2
    (by decide) 2 (by decide) (by norm_num)
  have h3 := (ProxyPool_Next_spec "round_robin" ["proxy-1", "proxy-2", "proxy-3"]).2
    (by decide) 3 (by decide) (by norm_num)
  have h4 := (ProxyPool_Next_spec "round_robin" ["proxy-1", "proxy-2", "proxy-3"]).2
    (by decide) 4 (by decide) (by norm_num)
  exact ⟨by simpa using h1, by simpa using h2, by simpa using h3, by simpa using h4⟩

/-! ## utils.go: sha256Hex, and the /api/enqueue handler (main.go) -/

/-- Hex digit character for a value below 16. -/
def hexDigit (n : Nat) : Char :=
  if n < 10 then Char.ofNat (48 + n) else Char.ofNat (87 + n)

/-- Fixed-width (eight hex digits) encoding of one character's code point. -/
def charHex8 (c : Char) : List Char :=
  [hexDigit (c.toNat / 16 ^ 7 % 16), hexDigit (c.toNat / 16 ^ 6 % 16),
   hexDigit (c.toNat / 16 ^ 5 % 16), hexDigit (c.toNat / 16 ^ 4 % 16),
   hexDigit (c.toNat / 16 ^ 3 % 16), hexDigit (c.toNat / 16 ^ 2 % 16),
   hexDigit (c.toNat / 16 % 16), hexDigit (c.toNat % 16)]

/-- Models `sha256Hex` from utils.go.  The SHA-256 digest (Go standard
library) is replaced by an injective fixed-width hex encoding of the code
points; nothing in this development depends on the digest function beyond
its being deterministic in the input string. -/
def sha256Hex (s : String) : String :=
  ⟨s.data.foldr (fun c acc => charHex8 c ++ acc) []⟩

/-- The JSON body of POST /api/enqueue (api_types.go): `priority` is a
pointer field, absent when the JSON omits it. -/
structure EnqueueRequest where
  url : String
  priority : Option Int
deriving DecidableEq, Repr

/-- The priority defaulting of the /api/enqueue handler (main.go lines
146–149): zero unless the request carries a priority. -/
def requestPriority (req : EnqueueRequest) : Int :=
  match req.priority with
  | none => 0
  | some p => p

/-- The enqueue step of the /api/enqueue handler (main.go lines 144–150):
hash the normalized URL and conditionally insert it with the resolved
priority.  URL parsing, host normalization and the whitelist check happen
before this step and are not modeled. -/
def apiEnqueue (newId siteId : Nat) (finalURL : String) (req : EnqueueRequest)
    (q : List QueueRow) : Bool × List QueueRow :=
  enqueueIfNotExists newId siteId finalURL (sha256Hex finalURL) (requestPriority req) q

/-- C10: a request without a priority field is enqueued with priority 0, a
request with the field uses its exact value, and a successful API enqueue
appends exactly the row carrying that resolved priority. -/
theorem apiEnqueue_priority_spec (newId siteId : Nat) (finalURL u : String)
    (p : Int) (q : List QueueRow) :
    requestPriority ⟨u, none⟩ = 0 ∧
    requestPriority ⟨u, some p⟩ = p ∧
    (∀ req : EnqueueRequest,
      (apiEnqueue newId siteId finalURL req q).1 = true →
      (apiEnqueue newId siteId finalURL req q).2 =
        q ++ [⟨newId, siteId, finalURL, sha256Hex finalURL, requestPriority req,
               CrawlStatus.queued, 0, none, none⟩]) := by
  refine ⟨rfl, rfl, ?_⟩
  intro req h
  rw [apiEnqueue] at h ⊢
  by_cases hdup : q.any (activeMatch siteId (sha256Hex finalURL)) = true
  · rw [enqueueIfNotExists, if_pos hdup] at h
    simp at h
  · rw [enqueueIfNotExists, if_neg hdup]

/-- C10 witness: enqueueing a URL through the API with no priority field
inserts a priority-0 queued row. -/
theorem apiEnqueue_priority_spec_witness :
    (apiEnqueue 1 7 "https://example.com/" ⟨"https://example.com/", none⟩ []).2 =
      [⟨1, 7, "https://example.com/", sha256Hex "https://example.com/", 0,
        CrawlStatus.queued, 0, none, none⟩] := by
  have h := (apiEnqueue_priority_spec 1 7 "https://example.com/" "x" 0 []).2.2
    ⟨"https://example.com/", none⟩ (by decide)
  simpa [requestPriority] using h

/-! ## Database model: pages, and `upsertPage` (unnamed source, lines 76–102) -/

/-- One row of `pages` (init.sql lines 93–116).  Nullable text columns are
`Option String`; columns never touched by `upsertPage` (headers, charset,
raw_size, tsvectors) are omitted. -/
structure PageRow where
  id : Nat
  siteId : Nat
  url : String
  urlHash : String
  title : Option String
  description : Option String
  lang : Option String
  httpStatus : Nat
  contentType : String
  htmlHash : String
  html : String
  fetchedAt : Nat
  text : String
deriving DecidableEq, Repr

/-- The `ON CONFLICT (site_id, url_hash)` key of `pages`. -/
def pageKeyMatch (siteId : Nat) (urlHash : String) (p : PageRow) : Bool :=
  decide (p.siteId = siteId) && decide (p.urlHash = urlHash)

/-- Embedding of `upsertPage`: `INSERT ... ON CONFLICT (site_id, url_hash)
DO UPDATE ... RETURNING id`.  On insert, `lang` is `NULLIF($6, empty)`; on
conflict, `title`, `description` and `lang` keep the stored value when the
incoming value is empty (`COALESCE(NULLIF(EXCLUDED..., empty), pages...)`)
while `http_status`, `content_type`, `html_hash`, `html`, `fetched_at` and
`text` take the incoming value unconditionally. -/
def upsertPage (newId siteId : Nat) (rawURL title description lang : String)
    (httpStatus : Nat) (contentType html text : String) (now : Nat)
    (pages : List PageRow) : Nat × List PageRow :=
  let urlHash := sha256Hex rawURL
  let htmlHash := sha256Hex html
  if pages.any (pageKeyMatch siteId urlHash) then
    (((pages.find? (pageKeyMatch siteId urlHash)).map PageRow.id).getD 0,
     pages.map fun p =>
       if pageKeyMatch siteId urlHash p then
         { p with
           title := if title = "" then p.title else some title,
           description := if description = "" then p.description else some description,
           lang := if lang = "" then p.lang else some lang,
           httpStatus := httpStatus,
           contentType := contentType,
           htmlHash := htmlHash,
           html := html,
           fetchedAt := now,
           text := text }
       else p)
  else
    (newId,
     pages ++ [⟨newId, siteId, rawURL, urlHash, some title, some description,
                (if lang = "" then none else some lang),
                httpStatus, contentType, htmlHash, html, now, text⟩])

/-- C6 counterexample: a second fetch of the same URL whose extracted text
is empty overwrites the previously non-empty stored text (while the empty
title does keep the stored title), so empty extracted fields are not all
protected. -/
theorem upsertPage_empty_text_overwrites :
    ((upsertPage 1 1 "u" "T" "D" "en" 200 "text/html" "H" "hello" 10 []).2.map
        PageRow.text = ["hello"]) ∧
    ((upsertPage 2 1 "u" "" "" "" 200 "text/html" "" "" 20
        (upsertPage 1 1 "u" "T" "D" "en" 200 "text/html" "H" "hello" 10 []).2).2.map
        PageRow.text = [""]) ∧
    ((upsertPage 2 1 "u" "" "" "" 200 "text/html" "" "" 20
        (upsertPage 1 1 "u" "T" "D" "en" 200 "text/html" "H" "hello" 10 []).2).2.map
        PageRow.title = [some "T"]) := by
  refine ⟨?_, ?_, ?_⟩ <;> rfl

/-- C6 amended: when a page record is upserted onto an existing
(site, url hash) key, empty incoming title, description and language keep
the stored values and non-empty incoming values replace them; the extracted
text, like the html, status and content type, is overwritten
unconditionally — even by an empty value. -/
theorem upsertPage_update_spec (newId siteId : Nat)
    (rawURL title description lang : String) (httpStatus : Nat)
    (contentType html text : String) (now : Nat) (pages : List PageRow)
    (p : PageRow) (hp : p ∈ pages)
    (hkey : pageKeyMatch siteId (sha256Hex rawURL) p = true) :
    ∃ p' ∈ (upsertPage newId siteId rawURL title description lang httpStatus
        contentType html text now pages).2,
      (title = "" → p'.title = p.title) ∧
      (title ≠ "" → p'.title = some title) ∧
      (description = "" → p'.description = p.description) ∧
      (description ≠ "" → p'.description = some description) ∧
      (lang = "" → p'.lang = p.lang) ∧
      (lang ≠ "" → p'.lang = some lang) ∧
      p'.text = text ∧
      p'.html = html ∧
      p'.httpStatus = httpStatus ∧
      p'.contentType = contentType ∧
      p'.fetchedAt = now ∧
      p'.id = p.id ∧ p'.siteId = p.siteId ∧ p'.url = p.url ∧ p'.urlHash = p.urlHash := by
  have hany : pages.any (pageKeyMatch siteId (sha256Hex rawURL)) = true := by
    rw [List.any_eq_true]
    exact ⟨p, hp, hkey⟩
  rw [upsertPage]
  simp only [hany, if_true]
  refine ⟨{ p with
      title := if title = "" then p.title else some title,
      description := if description = "" then p.description else some description,
      lang := if lang = "" then p.lang else some lang,
      httpStatus := httpStatus,
      contentType := contentType,
      htmlHash := sha256Hex html,
      html := html,
      fetchedAt := now,
      text := text }, ?_, ?_⟩
  · have := List.mem_map_of_mem
      (f := fun q =>
        if pageKeyMatch siteId (sha256Hex rawURL) q then
          { q with
            title := if title = "" then q.title else some title,
            description := if description = "" then q.description else some description,
            lang := if lang = "" then q.lang else some lang,
            httpStatus := httpStatus,
            contentType := contentType,
            htmlHash := sha256Hex html,
            html := html,
            fetchedAt := now,
            text := text }
        else q) hp
    simpa [hkey] using this
  · refine ⟨?_, ?_, ?_, ?_, ?_, ?_, rfl, rfl, rfl, rfl, rfl, rfl, rfl, rfl, rfl⟩
    · intro h; simp [h]
    · intro h; simp [h]
    · intro h; simp [h]
    · intro h; simp [h]
    · intro h; simp [h]
    · intro h; simp [h]

/-- C6 amended witness: updating a stored page with an empty description
and a new title keeps the description, replaces the title, and overwrites
the text. -/
theorem upsertPage_update_spec_witness :
    ∃ p' ∈ (upsertPage 2 1 "u" "T2" "" "" 201 "text/html" "H2" "tx2" 20
        [⟨1, 1, "u", sha256Hex "u", some "T", some "D", some "en",
          200, "text/html", "h", "H", 10, "hello"⟩]).2,
      p'.title = some "T2" ∧ p'.description = some "D" ∧ p'.text = "tx2" := by
  obtain ⟨p', hmem, h⟩ := upsertPage_update_spec 2 1 "u" "T2" "" "" 201
    "text/html" "H2" "tx2" 20
    [⟨1, 1, "u", sha256Hex "u", some "T", some "D", some "en",
      200, "text/html", "h", "H", 10, "hello"⟩]
    ⟨1, 1, "u", sha256Hex "u", some "T", some "D", some "en",
      200, "text/html", "h", "H", 10, "hello"⟩
    (by simp) (by rw [pageKeyMatch]; simp)
  refine ⟨p', hmem, h.2.1 (by decide), ?_, h.2.2.2.2.2.2.1⟩
  have hd := h.2.2.1 rfl
  simpa using hd

/-! ## pickAndProcessOne, processing phase (unnamed source, lines 296–346) -/

/-- Outcome of `fetchHTML` as observed by `pickAndProcessOne`: an error
(network failure, timeout, or a status outside [200,400), which `fetchHTML`
reports as an error) or a status, content type and body. -/
inductive FetchResult
  | fetchFail (msg : String)
  | fetchOk (status : Nat) (ctype : List Char) (body : String)
deriving DecidableEq, Repr

/-- The post-claim processing of `pickAndProcessOne`, at the level of its
database effects.  The fetch outcome `fr`, the extractor outputs `title`,
`description` and `text` for the body, a storage failure `storeFail` for
the page upsert (carrying the database error text), fresh ids and the
in-domain candidate links of `extractAndEnqueueLinks` (URL resolution via
net/url is outside the model) are inputs; the result is the updated queue
and pages.  Each error path schedules the retry exactly as the source:
fetch errors 5 minutes, disallowed content type 30 minutes, storage errors
10 minutes. -/
def processFetched (now : Nat) (it : QueueRow) (fr : FetchResult)
    (allow : List (List Char)) (title description text : String)
    (storeFail : Option String) (newPageId : Nat)
    (links : List (Nat × String)) (q : List QueueRow) (pages : List PageRow) :
    List QueueRow × List PageRow :=
  match fr with
  | FetchResult.fetchFail msg =>
      (markQueueError now it.id ("fetch: " ++ msg) (5 * 60) q, pages)
  | FetchResult.fetchOk status ctype body =>
      if ¬ isAllowedContentType ctype allow then
        (markQueueError now it.id ("content-type not allowed: " ++ String.mk ctype)
          (30 * 60) q, pages)
      else
        match storeFail with
        | some errMsg =>
            (markQueueError now it.id ("store: " ++ errMsg) (10 * 60) q, pages)
        | none =>
            let res := upsertPage newPageId it.siteId it.url title description ""
              status (String.mk ctype) body text now pages
            let q1 := links.foldl
              (fun acc l => (enqueueIfNotExists l.1 it.siteId l.2 (sha256Hex l.2) 0 acc).2) q
            (markQueueDone it.id q1, res.2)

theorem markQueueError_mem (now : Nat) (msg : String) (d : Nat)
    (q : List QueueRow) (it : QueueRow) (hit : it ∈ q) :
    { it with status := CrawlStatus.error, lastError := some msg,
              nextTryAt := some (now + d) } ∈ markQueueError now it.id msg d q := by
  rw [markQueueError]
  have := List.mem_map_of_mem
    (f := fun s =>
      if s.id = it.id then
        { s with status := CrawlStatus.error, lastError := some msg,
                 nextTryAt := some (now + d) }
      else s) hit
  simpa using this

/-- C3: a fetch failure marks the claimed item `error` with retry five
minutes ahead; a disallowed content type marks it `error` with retry thirty
minutes ahead and creates no page record; a storage failure during the page
upsert marks it `error` with retry ten minutes ahead and leaves the pages
table unchanged; and the scheduled retry is the same fixed offset from now
whatever the item's attempt count. -/
theorem processFetched_backoff_spec (now : Nat) (it : QueueRow)
    (allow : List (List Char)) (title description text : String)
    (newPageId : Nat) (links : List (Nat × String))
    (q : List QueueRow) (pages : List PageRow) (hit : it ∈ q) :
    (∀ msg,
      { it with status := CrawlStatus.error, lastError := some ("fetch: " ++ msg),
                nextTryAt := some (now + 5 * 60) }
        ∈ (processFetched now it (FetchResult.fetchFail msg) allow title description
            text none newPageId links q pages).1 ∧
      (processFetched now it (FetchResult.fetchFail msg) allow title description
          text none newPageId links q pages).2 = pages) ∧
    (∀ status ctype body, isAllowedContentType ctype allow = false →
      { it with status := CrawlStatus.error,
                lastError := some ("content-type not allowed: " ++ String.mk ctype),
                nextTryAt := some (now + 30 * 60) }
        ∈ (processFetched now it (FetchResult.fetchOk status ctype body) allow title
            description text none newPageId links q pages).1 ∧
      (processFetched now it (FetchResult.fetchOk status ctype body) allow title
          description text none newPageId links q pages).2 = pages) ∧
    (∀ status ctype body errMsg, isAllowedContentType ctype allow = true →
      { it with status := CrawlStatus.error, lastError := some ("store: " ++ errMsg),
                nextTryAt := some (now + 10 * 60) }
        ∈ (processFetched now it (FetchResult.fetchOk status ctype body) allow title
            description text (some errMsg) newPageId links q pages).1 ∧
      (processFetched now it (FetchResult.fetchOk status ctype body) allow title
          description text (some errMsg) newPageId links q pages).2 = pages) ∧
    (∀ msg a,
      { it with attempts := a, status := CrawlStatus.error,
                lastError := some ("fetch: " ++ msg), nextTryAt := some (now + 5 * 60) }
        ∈ (processFetched now { it with attempts := a } (FetchResult.fetchFail msg)
            allow title description text none newPageId links
            [{ it with attempts := a }] pages).1) := by
  refine ⟨?_, ?_, ?_, ?_⟩
  · intro msg
    exact ⟨markQueueError_mem now ("fetch: " ++ msg) (5 * 60) q it hit, rfl⟩
  · intro status ctype body hct
    rw [processFetched]
    have hcond : ¬ isAllowedContentType ctype allow = true := by simp [hct]
    rw [if_pos hcond]
    exact ⟨markQueueError_mem now ("content-type not allowed: " ++ String.mk ctype)
      (30 * 60) q it hit, rfl⟩
  · intro status ctype body errMsg hct
    rw [processFetched]
    have hcond : ¬ ¬ isAllowedContentType ctype allow = true := by simp [hct]
    rw [if_neg hcond]
    exact ⟨markQueueError_mem now ("store: " ++ errMsg) (10 * 60) q it hit, rfl⟩
  · intro msg a
    exact markQueueError_mem now ("fetch: " ++ msg) (5 * 60)
      [{ it with attempts := a }] { it with attempts := a } (by simp)

/-- C3 witness: a fetch failure on a single-item queue schedules the retry
exactly 300 seconds ahead, a disallowed content type 1800 seconds ahead,
and a storage failure 600 seconds ahead, with the pages table unchanged. -/
theorem processFetched_backoff_spec_witness :
    ({ id := 9, siteId := 1, url := "u", urlHash := "h", priority := 0,
       status := CrawlStatus.error, attempts := 3,
       lastError := some "fetch: timeout", nextTryAt := some (1000 + 5 * 60) } : QueueRow)
      ∈ (processFetched 1000
          ⟨9, 1, "u", "h", 0, CrawlStatus.processing, 3, none, none⟩
          (FetchResult.fetchFail "timeout") ["text/html".data] "t" "d" "x" none 5 []
          [⟨9, 1, "u", "h", 0, CrawlStatus.processing, 3, none, none⟩] []).1 ∧
    ({ id := 9, siteId := 1, url := "u", urlHash := "h", priority := 0,
       status := CrawlStatus.error, attempts := 3,
       lastError := some ("content-type not allowed: " ++ String.mk "application/pdf".data),
       nextTryAt := some (1000 + 30 * 60) } : QueueRow)
      ∈ (processFetched 1000
          ⟨9, 1, "u", "h", 0, CrawlStatus.processing, 3, none, none⟩
          (FetchResult.fetchOk 200 "application/pdf".data "B") ["text/html".data]
          "t" "d" "x" none 5 []
          [⟨9, 1, "u", "h", 0, CrawlStatus.processing, 3, none, none⟩] []).1 ∧
    ({ id := 9, siteId := 1, url := "u", urlHash := "h", priority := 0,
       status := CrawlStatus.error, attempts := 3,
       lastError := some "store: db down", nextTryAt := some (1000 + 10 * 60) } : QueueRow)
      ∈ (processFetched 1000
          ⟨9, 1, "u", "h", 0, CrawlStatus.processing, 3, none, none⟩
          (FetchResult.fetchOk 200 "text/html".data "B") ["text/html".data]
          "t" "d" "x" (some "db down") 5 []
          [⟨9, 1, "u", "h", 0, CrawlStatus.processing, 3, none, none⟩] []).1 := by
  refine ⟨?_, ?_, ?_⟩
  · exact ((processFetched_backoff_spec 1000
      ⟨9, 1, "u", "h", 0, CrawlStatus.processing, 3, none, none⟩
      ["text/html".data] "t" "d" "x" 5 []
      [⟨9, 1, "u", "h", 0, CrawlStatus.processing, 3, none, none⟩] []
      (by simp)).1 "timeout").1
  · exact ((processFetched_backoff_spec 1000
      ⟨9, 1, "u", "h", 0, CrawlStatus.processing, 3, none, none⟩
      ["text/html".data] "t" "d" "x" 5 []
      [⟨9, 1, "u", "h", 0, CrawlStatus.processing, 3, none, none⟩] []
      (by simp)).2.1 200 "application/pdf".data "B" (by decide)).1
  · exact ((processFetched_backoff_spec 1000
      ⟨9, 1, "u", "h", 0, CrawlStatus.processing, 3, none, none⟩
      ["text/html".data] "t" "d" "x" 5 []
      [⟨9, 1, "u", "h", 0, CrawlStatus.processing, 3, none, none⟩] []
      (by simp)).2.2.1 200 "text/html".data "B" "db down" (by decide)).1

/-! ## parser.go: `extractTitle` (lines 39–53)

The Go regular expressions involved are embedded directly as scanners:
`(?is)<title[^>]*>(.*?)</title>` (leftmost match, minimal content),
`(?is)<[^>]+>` replaced by a space, and `\s+` collapsed to a single space.
`html.UnescapeString` (Go standard library) is modeled with numeric
character references and a core named-entity table; the byte cap `t[:512]`
keeps whole characters only, since a Lean string cannot hold the trailing
bytes of a split UTF-8 character. -/

/-- Case-insensitive match of a lowercase ASCII pattern at the head of the
input, as RE2 case folding does for the ASCII literals in these patterns. -/
def ciStartsWith : List Char → List Char → Bool
  | _, [] => true
  | [], _ :: _ => false
  | c :: cs, p :: ps => decide (goLowerChar c = p) && ciStartsWith cs ps

/-- The literal `<title` of the title regular expression. -/
def titleOpen : List Char := ['<', 't', 'i', 't', 'l', 'e']

/-- The literal `</title>` of the title regular expression. -/
def titleClose : List Char := ['<', '/', 't', 'i', 't', 'l', 'e', '>']

/-- Match `<title[^>]*>` at the head of the input: on success return what
follows the forced first `>`. -/
def titleAt (s : List Char) : Option (List Char) :=
  if ciStartsWith s titleOpen then
    match (s.drop 6).dropWhile (fun c => decide (c ≠ '>')) with
    | '>' :: tail => some tail
    | _ => none
  else none

/-- Minimal content before the first `</title>` (case-insensitive), the
non-greedy `(.*?)` of the title regular expression; `none` when no close
tag follows. -/
def splitAtClose : List Char → Option (List Char)
  | [] => none
  | c :: cs =>
      if ciStartsWith (c :: cs) titleClose then some []
      else
        match splitAtClose cs with
        | some content => some (c :: content)
        | none => none

/-- Full title-regular-expression match anchored at the head of the input:
the captured group. -/
def matchTitleAt (s : List Char) : Option (List Char) :=
  match titleAt s with
  | none => none
  | some tail => splitAtClose tail

/-- Leftmost title-regular-expression match: the first submatch of
`reTitle.FindStringSubmatch`. -/
def findTitleContent : List Char → Option (List Char)
  | [] => none
  | c :: cs =>
      match matchTitleAt (c :: cs) with
      | some content => some content
      | none => findTitleContent cs

/-- Scanner state machine for `rmTags.ReplaceAllString(s, " ")` with the
pattern `<[^>]+>`: `acc` holds the characters (reversed) seen since a
pending `<`.  A pending `<` with an empty body at `>` is not a match; a
pending `<` never closed is emitted verbatim. -/
def stripTagsGo : Option (List Char) → List Char → List Char
  | none, [] => []
  | none, c :: cs => if c = '<' then stripTagsGo (some []) cs else c :: stripTagsGo none cs
  | some acc, [] => '<' :: acc.reverse
  | some acc, c :: cs =>
      if c = '>' then
        match acc with
        | [] => '<' :: '>' :: stripTagsGo none cs
        | _ :: _ => ' ' :: stripTagsGo none cs
      else stripTagsGo (some (c :: acc)) cs

/-- `rmTags.ReplaceAllString(s, " ")`: every `<[^>]+>` becomes one space. -/
def stripTags (l : List Char) : List Char := stripTagsGo none l

/-- Scanner for `spaceSeq.ReplaceAllString(s, " ")` with the pattern `\s+`:
the flag records whether the previous character was inside a space run. -/
def collapseSpaceGo : Bool → List Char → List Char
  | _, [] => []
  | inRun, c :: cs =>
      if isRegexSpaceChar c then
        if inRun then collapseSpaceGo true cs else ' ' :: collapseSpaceGo true cs
      else c :: collapseSpaceGo false cs

/-- `spaceSeq.ReplaceAllString(s, " ")`: every whitespace run becomes one
space. -/
def collapseSpace (l : List Char) : List Char := collapseSpaceGo false l

/-- Decimal digit test for character references. -/
def isDecDigitChar (c : Char) : Bool := decide ('0' ≤ c) && decide (c ≤ '9')

/-- Hexadecimal digit test for character references. -/
def isHexDigitChar (c : Char) : Bool :=
  (decide ('0' ≤ c) && decide (c ≤ '9')) || (decide ('a' ≤ c) && decide (c ≤ 'f')) ||
  (decide ('A' ≤ c) && decide (c ≤ 'F'))

/-- Value of one hexadecimal digit. -/
def hexDigitVal (c : Char) : Nat :=
  if c ≤ '9' then c.toNat - 48 else if c ≤ 'F' then c.toNat - 55 else c.toNat - 87

/-- Alphanumeric test for entity names. -/
def isEntityNameChar (c : Char) : Bool :=
  (decide ('a' ≤ c) && decide (c ≤ 'z')) || (decide ('A' ≤ c) && decide (c ≤ 'Z')) ||
  isDecDigitChar c

/-- Core named-entity table of `html.UnescapeString` (the full Go table has
over two thousand entries; the algorithm is the same). -/
def namedEntities : List (List Char × Char) :=
  [("amp".data, '&'), ("lt".data, '<'), ("gt".data, '>'),
   ("quot".data, '"'), ("apos".data, Char.ofNat 39), ("nbsp".data, Char.ofNat 160),
   ("copy".data, Char.ofNat 169), ("laquo".data, Char.ofNat 171),
   ("raquo".data, Char.ofNat 187), ("ndash".data, Char.ofNat 8211),
   ("mdash".data, Char.ofNat 8212), ("hellip".data, Char.ofNat 8230)]

/-- Look up an entity name. -/
def lookupEntity (nm : List Char) : Option Char :=
  (namedEntities.find? fun e => decide (e.1 = nm)).map (fun e => e.2)

/-- Code point to character, with Go's replacement character for invalid
code points. -/
def charFromCode (n : Nat) : Char :=
  if Nat.isValidChar n then Char.ofNat n else Char.ofNat 0xFFFD

/-- Parse one character reference directly after a `&`: numeric
(`#10;`, `#x1F;`) or named (`amp;`); returns the replacement character and
how many characters were consumed. -/
def parseCharRef (s : List Char) : Option (Char × Nat) :=
  match s with
  | '#' :: rest =>
      match rest with
      | 'x' :: rest2 =>
          let ds := rest2.takeWhile isHexDigitChar
          if ds.isEmpty then none
          else
            match rest2.drop ds.length with
            | ';' :: _ =>
                some (charFromCode (ds.foldl (fun n c => 16 * n + hexDigitVal c) 0),
                      2 + ds.length + 1)
            | _ => none
      | _ =>
          let ds := rest.takeWhile isDecDigitChar
          if ds.isEmpty then none
          else
            match rest.drop ds.length with
            | ';' :: _ =>
                some (charFromCode (ds.foldl (fun n c => 10 * n + (c.toNat - 48)) 0),
                      1 + ds.length + 1)
            | _ => none
  | _ =>
      let nm := s.takeWhile isEntityNameChar
      if nm.isEmpty then none
      else
        match s.drop nm.length with
        | ';' :: _ => (lookupEntity nm).map (fun ch => (ch, nm.length + 1))
        | _ => none

/-- Fuel-driven scanner for `html.UnescapeString`: replace each parsable
`&`-reference, pass everything else through.  The fuel is the input length,
which each step strictly under-runs. -/
def unescapeHTMLGo : Nat → List Char → List Char
  | 0, l => l
  | _ + 1, [] => []
  | fuel + 1, '&' :: rest =>
      match parseCharRef rest with
      | some (ch, k) => ch :: unescapeHTMLGo fuel (rest.drop k)
      | none => '&' :: unescapeHTMLGo fuel rest
  | fuel + 1, c :: cs => c :: unescapeHTMLGo fuel cs

/-- Model of Go `html.UnescapeString` on a character list. -/
def unescapeHTML (l : List Char) : List Char := unescapeHTMLGo l.length l

/-- UTF-8 byte length of a character list: Go's `len` on the string. -/
def utf8Len (l : List Char) : Nat := (l.map Char.utf8Size).sum

/-- Longest prefix of whole characters fitting the byte budget: Go's
`t[:512]` byte slice, except that the leading bytes of a split character
are dropped rather than kept as invalid UTF-8. -/
def takeBytes : Nat → List Char → List Char
  | _, [] => []
  | budget, c :: cs =>
      if c.utf8Size ≤ budget then c :: takeBytes (budget - c.utf8Size) cs else []

/-- Embedding of `extractTitle` from `parser.go`: first `<title>` block
content, trimmed, tag-stripped, whitespace-collapsed, trimmed again,
entity-unescaped and capped at 512 bytes; empty when no block matches. -/
def extractTitle (htmlStr : List Char) : List Char :=
  match findTitleContent htmlStr with
  | none => []
  | some content =>
      let t := goTrimSpace content
      let t2 := stripTags t
      let t3 := collapseSpace t2
      let t4 := goTrimSpace t3
      let t5 := unescapeHTML t4
      if utf8Len t5 > 512 then takeBytes 512 t5 else t5

theorem utf8Len_takeBytes_le (l : List Char) : ∀ b, utf8Len (takeBytes b l) ≤ b := by
  induction l with
  | nil => intro b; simp [takeBytes, utf8Len]
  | cons c cs ih =>
    intro b
    rw [takeBytes]
    by_cases hc : c.utf8Size ≤ b
    · rw [if_pos hc]
      have hih := ih (b - c.utf8Size)
      rw [utf8Len] at hih
      simp only [utf8Len, List.map_cons, List.sum_cons]
      omega
    · rw [if_neg hc]
      simp [utf8Len]

theorem findTitleContent_leftmost :
    ∀ (h : List Char) (c : List Char), findTitleContent h = some c →
      ∃ i, matchTitleAt (h.drop i) = some c ∧
        ∀ j < i, matchTitleAt (h.drop j) = none := by
  intro h
  induction h with
  | nil => intro c hc; simp [findTitleContent] at hc
  | cons c0 cs ih =>
    intro c hc
    rw [findTitleContent] at hc
    cases hm : matchTitleAt (c0 :: cs) with
    | some content =>
      rw [hm] at hc
      refine ⟨0, ?_, by omega⟩
      rw [List.drop_zero, hm]
      exact hc
    | none =>
      rw [hm] at hc
      obtain ⟨i, hi, hj⟩ := ih c hc
      refine ⟨i + 1, by simpa using hi, ?_⟩
      intro j hji
      cases j with
      | zero => simpa using hm
      | succ j' =>
        have := hj j' (by omega)
        simpa using this

theorem titleAt_decomp (s tail : List Char) (h : titleAt s = some tail) :
    ciStartsWith s titleOpen = true ∧
    ∃ attrs, s.drop 6 = attrs ++ '>' :: tail ∧ ∀ a ∈ attrs, a ≠ '>' := by
  rw [titleAt] at h
  by_cases hci : ciStartsWith s titleOpen = true
  · refine ⟨hci, ?_⟩
    rw [if_pos hci] at h
    cases hd : (s.drop 6).dropWhile (fun c => decide (c ≠ '>')) with
    | nil => rw [hd] at h; simp at h
    | cons d ds =>
      rw [hd] at h
      by_cases hdgt : d = '>'
      · subst hdgt
        simp only [Option.some.injEq] at h
        subst h
        refine ⟨(s.drop 6).takeWhile (fun c => decide (c ≠ '>')), ?_, ?_⟩
        · conv_lhs => rw [← List.takeWhile_append_dropWhile
            (p := fun c => decide (c ≠ '>')) (l := s.drop 6)]
          rw [hd]
        · intro a ha
          have := List.mem_takeWhile_imp ha
          simpa using this
      · exfalso
        have hne : (fun c => decide (c ≠ '>')) d = false := by
          have := List.head?_dropWhile_not (p := fun c => decide (c ≠ '>')) (l := s.drop 6)
          rw [hd] at this
          simpa using this
        simp [hdgt] at hne
  · rw [if_neg hci] at h
    simp at h

theorem splitAtClose_decomp :
    ∀ (l content : List Char), splitAtClose l = some content →
      ∃ r, l = content ++ r ∧ ciStartsWith r titleClose = true := by
  intro l
  induction l with
  | nil => intro content hc; simp [splitAtClose] at hc
  | cons c cs ih =>
    intro content hc
    rw [splitAtClose] at hc
    by_cases hci : ciStartsWith (c :: cs) titleClose = true
    · rw [if_pos hci] at hc
      simp only [Option.some.injEq] at hc
      subst hc
      exact ⟨c :: cs, rfl, hci⟩
    · rw [if_neg hci] at hc
      cases hrec : splitAtClose cs with
      | none => rw [hrec] at hc; simp at hc
      | some content' =>
        rw [hrec] at hc
        simp only [Option.some.injEq] at hc
        subst hc
        obtain ⟨r, hr, hcir⟩ := ih content' hrec
        exact ⟨r, by rw [hr]; rfl, hcir⟩

/-- C9 amended: `extractTitle` returns the empty string when the title
pattern matches nowhere; on the leftmost match it returns the captured
content trimmed, tag-stripped, whitespace-collapsed, trimmed,
entity-unescaped and capped at 512 UTF-8 BYTES (not characters); the
result never exceeds 512 bytes; and the matched content really sits inside
a `<title...>...</title>` block that no earlier position matches. -/
theorem extractTitle_spec (h : List Char) :
    (findTitleContent h = none → extractTitle h = []) ∧
    (∀ c, findTitleContent h = some c →
      extractTitle h =
        (let t := unescapeHTML (goTrimSpace (collapseSpace (stripTags (goTrimSpace c))))
         if utf8Len t > 512 then takeBytes 512 t else t)) ∧
    utf8Len (extractTitle h) ≤ 512 ∧
    (∀ c, findTitleContent h = some c →
      ∃ i, (∀ j < i, matchTitleAt (h.drop j) = none) ∧
        ciStartsWith (h.drop i) titleOpen = true ∧
        ∃ attrs r, (h.drop i).drop 6 = attrs ++ '>' :: (c ++ r) ∧
          (∀ a ∈ attrs, a ≠ '>') ∧
          ciStartsWith r titleClose = true) := by
  refine ⟨?_, ?_, ?_, ?_⟩
  · intro hnone
    simp [extractTitle, hnone]
  · intro c hc
    simp [extractTitle, hc]
  · cases hf : findTitleContent h with
    | none => simp [extractTitle, hf, utf8Len]
    | some c =>
      rw [extractTitle, hf]
      simp only
      by_cases h512 :
          utf8Len (unescapeHTML (goTrimSpace (collapseSpace (stripTags (goTrimSpace c))))) > 512
      · rw [if_pos h512]
        exact utf8Len_takeBytes_le _ 512
      · rw [if_neg h512]
        omega
  · intro c hc
    obtain ⟨i, hi, hj⟩ := findTitleContent_leftmost h c hc
    cases ht : titleAt (h.drop i) with
    | none => rw [matchTitleAt, ht] at hi; simp at hi
    | some tail =>
      have hsplit : splitAtClose tail = some c := by
        rw [matchTitleAt, ht] at hi
        exact hi
      obtain ⟨hci, attrs, hattr, hgt⟩ := titleAt_decomp (h.drop i) tail ht
      obtain ⟨r, hr, hcir⟩ := splitAtClose_decomp tail c hsplit
      exact ⟨i, hj, hci, attrs, r, by rw [hattr, hr], hgt, hcir⟩

set_option maxRecDepth 40000 in
/-- C9 amended witness: a title block inside a page yields its trimmed
content. -/
theorem extractTitle_spec_witness :
    extractTitle "<html><title> Hi &amp; bye </title></html>".data = "Hi & bye".data := by
  have h := (extractTitle_spec "<html><title> Hi &amp; bye </title></html>".data).2.1
    " Hi &amp; bye ".data (by rfl)
  exact h.trans (by rfl)

set_option maxRecDepth 100000 in
/-- C9 counterexample: a title of 257 two-byte characters (514 UTF-8
bytes, 257 characters, well under a 512-character cap) is truncated by the
byte slice to 256 characters, so the cap is 512 bytes, not 512
characters. -/
theorem extractTitle_char_cap_counterexample :
    extractTitle ("<title>".data ++ List.replicate 257 'я' ++ "</title>".data)
      = List.replicate 256 'я' ∧
    (List.replicate 257 'я').length = 257 ∧
    extractTitle ("<title>".data ++ List.replicate 257 'я' ++ "</title>".data)
      ≠ List.replicate 257 'я' := by
  have h : extractTitle ("<title>".data ++ List.replicate 257 'я' ++ "</title>".data)
      = List.replicate 256 'я' := by rfl
  refine ⟨h, by simp, ?_⟩
  rw [h]
  intro heq
  have hlen := congrArg List.length heq
  simp at hlen
